import Mathlib

/-!
Verification of the attention-hidden-state caching and re-injection mechanism
of the feedback-guided image generator (`fabric/generator.py`).

The development shallowly embeds the relevant parts of the source:

* the weighted-attention probability computations of `attn_with_weights`
  (the reference softmax path, lines 102-109, and the fused-kernel log-bias
  path, lines 110-121), modelled per query row over the real numbers;
* the instrumentation protocol of `get_unet_hidden_states` and
  `unet_forward_with_cached_hidden_states` (save `old_forward`, patch
  `forward`, run, restore, delete), modelled on a list of module states;
* the per-block `new_forward` of `unet_forward_with_cached_hidden_states`
  (batch split, cache pop, sequence concatenation, weight-vector build,
  recombination), modelled symbolically on batches given as lists of rows;
* the feedback window arithmetic of `generate` (Python `round`, the
  inclusive index window) over the rationals;
* the per-step denoising loop skeleton of `generate` with the external
  collaborators (unet, scheduler) abstracted as parameters;
* the argument-validation order of `generate` as an operation trace;
* the per-depth weight ramps built with `torch.linspace`;
* the image preprocessing of `image_to_tensor`.
-/

/-! ### Weighted attention probabilities (`attn_with_weights`)

Per query row: `s` is the row of attention logits over `n` key positions
(scaled dot products, as produced by `attn.get_attention_scores` before its
softmax), `w` the per-key weight row. -/

/-- Row softmax, the distribution produced by `attn.get_attention_scores`. -/
noncomputable def softmaxRow {n : ℕ} (s : Fin n → ℝ) : Fin n → ℝ :=
  fun i => Real.exp (s i) / ∑ j, Real.exp (s j)

/-- Lines 107-108: `attention_probs = attention_probs * weights`,
`attention_probs = attention_probs / attention_probs.sum(dim=-1, keepdim=True)`. -/
noncomputable def weightRenormalize {n : ℕ} (p w : Fin n → ℝ) : Fin n → ℝ :=
  fun i => p i * w i / ∑ j, p j * w j

/-- Reference path of `attn_with_weights` (no xformers): softmax, multiply by
the weights, renormalize over the key dimension. -/
noncomputable def attnProbsWeighted {n : ℕ} (s w : Fin n → ℝ) : Fin n → ℝ :=
  weightRenormalize (softmaxRow s) w

/-- Fused-kernel path of `attn_with_weights` (line 112): `weights.log()` is
added to the logits as an attention bias before the kernel's softmax. -/
noncomputable def attnProbsBiased {n : ℕ} (s w : Fin n → ℝ) : Fin n → ℝ :=
  softmaxRow (fun i => s i + Real.log (w i))

/-- One output coordinate of `torch.bmm(attention_probs, value)` for one
query row: the probability-weighted combination of the value rows. -/
noncomputable def bmmRow {n : ℕ} (p : Fin n → ℝ) (value : Fin n → ℝ) : ℝ :=
  ∑ j, p j * value j

/-! ### Feedback window (`generate`, lines 420-442) -/

/-- Python builtin `round` (round half to even) on a rational. -/
def pyRound (q : ℚ) : ℤ :=
  if q - ⌊q⌋ < 1/2 then ⌊q⌋
  else if 1/2 < q - ⌊q⌋ then ⌊q⌋ + 1
  else if 2 ∣ ⌊q⌋ then ⌊q⌋ else ⌊q⌋ + 1

/-- Line 420: `ref_start_idx = round(len(timesteps) * feedback_start)`. -/
def ref_start_idx (N : ℕ) (feedback_start : ℚ) : ℤ :=
  pyRound (N * feedback_start)

/-- Line 421: `ref_end_idx = round(len(timesteps) * feedback_end)`. -/
def ref_end_idx (N : ℕ) (feedback_end : ℚ) : ℤ :=
  pyRound (N * feedback_end)

/-- Lines 437-440: `weight = max_weight if ref_start_idx <= i <= ref_end_idx
else min_weight` (both comparisons inclusive). -/
def baseWeight (i N : ℕ) (feedback_start feedback_end min_weight max_weight : ℚ) : ℚ :=
  if ref_start_idx N feedback_start ≤ (i : ℤ) ∧ (i : ℤ) ≤ ref_end_idx N feedback_end then
    max_weight
  else
    min_weight

/-! ### Instrumentation protocol (`get_unet_hidden_states` lines 229-246,
`unet_forward_with_cached_hidden_states` lines 336-345)

An `attn1` module's callable state: its current `forward` and the
`old_forward` attribute (absent = `none`). `F` is the abstract type of
the callable. -/

structure AttnModule (F : Type) where
  forward : F
  old_forward : Option F
deriving DecidableEq

/-- Lines 236-237 / 336-337: `module.attn1.old_forward = module.attn1.forward;
module.attn1.forward = new_forward.__get__(module.attn1)`. `mk` builds the
patched closure from the saved original. -/
def instrumentModule {F : Type} (mk : F → F) (m : AttnModule F) : AttnModule F :=
  { forward := mk m.forward, old_forward := some m.forward }

/-- Lines 243-246 / 342-345: `module.attn1.forward = module.attn1.old_forward;
del module.attn1.old_forward`. -/
def restoreModule {F : Type} (m : AttnModule F) : AttnModule F :=
  { forward := m.old_forward.getD m.forward, old_forward := none }

def instrumentAll {F : Type} (mk : F → F) (ms : List (AttnModule F)) : List (AttnModule F) :=
  ms.map (instrumentModule mk)

def restoreAll {F : Type} (ms : List (AttnModule F)) : List (AttnModule F) :=
  ms.map restoreModule

/-- Net effect of `get_unet_hidden_states` on the `attn1` modules: patch every
module, run the forward pass (which does not touch the callables), restore. -/
def modulesAfterHiddenStateCache {F : Type} (mk : F → F) (ms : List (AttnModule F)) :
    List (AttnModule F) :=
  restoreAll (instrumentAll mk ms)

/-- Net effect of `unet_forward_with_cached_hidden_states` on the `attn1`
modules: with both caches absent it returns at line 261 without touching any
module; otherwise it patches every module, runs, and restores. -/
def modulesAfterInjectionForward {F C : Type} (mk : F → F)
    (cached_pos_hiddens cached_neg_hiddens : Option C) (ms : List (AttnModule F)) :
    List (AttnModule F) :=
  if cached_pos_hiddens.isNone ∧ cached_neg_hiddens.isNone then ms
  else restoreAll (instrumentAll mk ms)

/-! ### Per-block `new_forward` (lines 278-334)

Batches are lists of rows (dim 0); a row is a list of positions (dim 1);
the entry type `V` abstracts a feature vector. The external weighted
attention (`attn_with_weights`) and the saved plain attention
(`self.old_forward`) are abstract parameters. -/

inductive TErr where
  | popFromEmpty
deriving DecidableEq

/-- Python `list.pop(0)`: raises IndexError on an empty list. -/
def popFront {α : Type} : List α → Except TErr (α × List α)
  | [] => .error .popFromEmpty
  | x :: xs => .ok (x, xs)

/-- Tensor `chunk(2, dim=0)`: first chunk gets `⌈n/2⌉` rows. -/
def chunk2 {α : Type} (xs : List α) : List α × List α :=
  (xs.take ((xs.length + 1) / 2), xs.drop ((xs.length + 1) / 2))

/-- Tensor `cat(dim=1)` of two equal-batch tensors. -/
def catDim1 {V : Type} (a b : List (List V)) : List (List V) :=
  List.zipWith (fun r s => r ++ s) a b

/-- Line 289: `torch.ones(batch_size, d_model)`. -/
def onesW (batch d : ℕ) : List (List ℚ) :=
  List.replicate batch (List.replicate d 1)

/-- Tensor `.repeat(1, m)`: tile each row `m` times along dim 1. -/
def repeatDim1 {V : Type} (t : List (List V)) (m : ℕ) : List (List V) :=
  t.map (fun row => (List.replicate m row).flatten)

/-- Slice assignment `row[d:] = w` on one weight row. -/
def assignFrom (row : List ℚ) (d : ℕ) (w : ℚ) : List ℚ :=
  row.take d ++ (row.drop d).map (fun _ => w)

/-- Slice assignment `t[:, d:] = w` on a weight tensor. -/
def assignFromAll (t : List (List ℚ)) (d : ℕ) (w : ℚ) : List (List ℚ) :=
  t.map (fun row => assignFrom row d w)

/-- Lines 293-331, one half of the batch: with a present cache, pop its front
tensor, concatenate it along dim 1 to the half's own hidden state, build the
weight tensor (`ones.repeat(1, 1 + cached_len // d_model)` then
`[:, d_model:] = w`), and run weighted attention with the half's own hidden
state as query; with an absent cache fall back to `self.old_forward`. -/
def halfOut {V : Type}
    (attnW : List (List V) → List (List V) → List (List ℚ) → List (List V))
    (oldFwd : List (List V) → List (List V))
    (own : List (List V)) (weights : List (List ℚ)) (d_model : ℕ) (w : ℚ) :
    Option (List (List (List V))) → Except TErr (List (List V) × Option (List (List (List V))))
  | none => .ok (oldFwd own, none)
  | some cache =>
    match popFront cache with
    | .error e => .error e
    | .ok (cached_hs, rest) =>
      let own_cat := catDim1 own cached_hs
      let ws := assignFromAll
        (repeatDim1 weights (1 + (cached_hs.headD []).length / d_model)) d_model w
      .ok (attnW own own_cat ws, some rest)

/-- Lines 278-334: the patched `new_forward` of one intercepted block.
Splits the batch in two at the midpoint (`chunk(2, dim=0)`), processes the
conditioned half against the positive cache and the unconditioned half
against the negative cache, and recombines with `cat(dim=0)`. Returns the
output together with the caches left for the following blocks. -/
def new_forward {V : Type}
    (attnW : List (List V) → List (List V) → List (List ℚ) → List (List V))
    (oldFwd : List (List V) → List (List V))
    (hidden_states : List (List V))
    (cached_pos_hiddens cached_neg_hiddens : Option (List (List (List V))))
    (pos_weight neg_weight : ℚ) :
    Except TErr
      (List (List V) × Option (List (List (List V))) × Option (List (List (List V)))) :=
  let cond_hiddens := (chunk2 hidden_states).1
  let uncond_hiddens := (chunk2 hidden_states).2
  let batch_size := cond_hiddens.length
  let d_model := (cond_hiddens.headD []).length
  let weights := onesW batch_size d_model
  match halfOut attnW oldFwd cond_hiddens weights d_model pos_weight cached_pos_hiddens with
  | .error e => .error e
  | .ok (out_pos, cp) =>
    match halfOut attnW oldFwd uncond_hiddens weights d_model neg_weight cached_neg_hiddens with
    | .error e => .error e
    | .ok (out_neg, cn) => .ok (out_pos ++ out_neg, cp, cn)

/-! ### Per-depth injection weight ramps (lines 263-273) -/

/-- `torch.linspace(a, b, steps)`: `steps` evenly spaced points from `a` to
`b` inclusive. -/
def linspace (a b : ℚ) (steps : ℕ) : List ℚ :=
  (List.range steps).map (fun (i : ℕ) => a + (b - a) * (i : ℚ) / ((steps : ℚ) - 1))

/-- Lines 263-268: `torch.linspace(*w, steps=len(down_blocks)+1)[:-1]`. -/
def local_weights (w : ℚ × ℚ) (nDown : ℕ) : List ℚ :=
  (linspace w.1 w.2 (nDown + 1)).dropLast

/-- Lines 270-273: the per-block weight list zipped against
`down_blocks + [mid_block] + up_blocks`, namely
`local_weights + [w[1]] + local_weights[::-1]`. -/
def depthWeights (w : ℚ × ℚ) (nDown : ℕ) : List ℚ :=
  local_weights w nDown ++ [w.2] ++ (local_weights w nDown).reverse

/-! ### Denoising loop skeleton of `generate` (lines 424-492)

`Z` is the latent space (a rational vector space stands in for the float
tensors), `E` the embedding type, `T` the timestep type. The external
collaborators are fields of `GenCollab`: the plain network forward pass, the
instrumented (cache-and-inject) forward pass, `scale_model_input` and the
scheduler `step`. The doubled batch is the pair (conditioned half,
unconditioned half). -/

structure GenCollab (Z E T : Type) where
  unetF : Z × Z → T → E → Z × Z
  injectedF : Z × Z → T → E → Z × Z
  scale_model_input : Z → T → Z
  schedStep : Z → T → Z → Z

/-- Lines 260-261: `unet_forward_with_cached_hidden_states` calls the network
directly when both caches are absent, and the instrumented network otherwise.
The cache contents are irrelevant to the control flow modelled here. -/
def unetForwardWithCached {Z E T : Type} (C : GenCollab Z E T)
    (z_all : Z × Z) (t : T) (prompt_embd : E)
    (cached_pos_hiddens cached_neg_hiddens : Option Unit) : Z × Z :=
  if cached_pos_hiddens.isNone ∧ cached_neg_hiddens.isNone then C.unetF z_all t prompt_embd
  else C.injectedF z_all t prompt_embd

/-- Lines 424-492, one iteration of `for i, t in enumerate(timesteps)`:
scale the latent, double the batch, compute the window weight, decide whether
reference caches are built (`z_ref.size(0) > 0 and weight > 0`, with each
half's cache present exactly when that polarity has reference latents), run
the (possibly instrumented) network, apply classifier-free guidance and the
scheduler step. -/
def fabricStep {Z E T : Type} [AddCommGroup Z] [Module ℚ Z] (C : GenCollab Z E T)
    (prompt_embd : E) (n_pos n_neg : ℕ)
    (feedback_start feedback_end min_weight max_weight guidance_scale : ℚ)
    (N : ℕ) (i : ℕ) (t : T) (z : Z) : Z :=
  let z_single := C.scale_model_input z t
  let z_all := (z_single, z_single)
  let weight := if ref_start_idx N feedback_start ≤ (i : ℤ) ∧
      (i : ℤ) ≤ ref_end_idx N feedback_end then max_weight else min_weight
  let caches : Option Unit × Option Unit :=
    if 0 < n_pos + n_neg ∧ 0 < weight then
      ((if 0 < n_pos then some () else none), (if 0 < n_neg then some () else none))
    else (none, none)
  let unet_out := unetForwardWithCached C z_all t prompt_embd caches.1 caches.2
  let noise_cond := unet_out.1
  let noise_uncond := unet_out.2
  let guidance := noise_cond - noise_uncond
  let noise_pred := noise_uncond + guidance_scale • guidance
  C.schedStep noise_pred t z

/-- The denoising loop: fold `fabricStep` over the timesteps, threading the
step index as `enumerate` does. -/
def fabricTrajectory {Z E T : Type} [AddCommGroup Z] [Module ℚ Z] (C : GenCollab Z E T)
    (prompt_embd : E) (n_pos n_neg : ℕ)
    (feedback_start feedback_end min_weight max_weight guidance_scale : ℚ)
    (timesteps : List T) (z0 : Z) : Z :=
  (timesteps.foldl
    (fun p t =>
      (p.1 + 1,
        fabricStep C prompt_embd n_pos n_neg feedback_start feedback_end min_weight
          max_weight guidance_scale timesteps.length p.1 t p.2))
    (0, z0)).2

/-- Modelled from the spec: plain classifier-free-guided sampling with no
injection — at every step the network is called directly on the doubled batch
and the outputs are combined as
`uncond_output + guidance_scale × (cond_output − uncond_output)`. -/
def plainCfgStep {Z E T : Type} [AddCommGroup Z] [Module ℚ Z] (C : GenCollab Z E T)
    (prompt_embd : E) (guidance_scale : ℚ) (t : T) (z : Z) : Z :=
  let z_single := C.scale_model_input z t
  let out := C.unetF (z_single, z_single) t prompt_embd
  C.schedStep (out.2 + guidance_scale • (out.1 - out.2)) t z

/-- Modelled from the spec: the plain classifier-free-guided trajectory. -/
def plainCfgTrajectory {Z E T : Type} [AddCommGroup Z] [Module ℚ Z] (C : GenCollab Z E T)
    (prompt_embd : E) (guidance_scale : ℚ) (timesteps : List T) (z0 : Z) : Z :=
  timesteps.foldl (fun z t => plainCfgStep C prompt_embd guidance_scale t z) z0

/-! ### Argument-validation order of `generate` (lines 372-410)

The observable operations of the body of `generate` before the denoising
loop, in source order, together with the first raised error (Python
`AssertionError` from the `assert len(...) == n_images` checks). -/

inductive GenOp where
  | latentSample
  | encodeLiked
  | encodeDisliked
  | encodePrompts
  | denoiseLoop
deriving DecidableEq

inductive GenErr where
  | promptLenMismatch
  | negativePromptLenMismatch
deriving DecidableEq

/-- Lines 372-423 of `generate` as an operation trace: sample the initial
latent (line 375), encode liked then disliked reference images when present
(lines 377-395), then check the prompt lists (lines 397-404: a string prompt
is replicated, a list prompt must have length `n_images`), then encode the
prompts (line 410) and enter the denoising loop. Returns the operations
performed and the error, if any, that aborted the call. -/
def generateOps (promptIsStr : Bool) (promptLen : ℕ) (negIsStr : Bool) (negLen : ℕ)
    (nLiked nDisliked n_images : ℕ) : List GenOp × Option GenErr :=
  let ops := [GenOp.latentSample]
  let ops := ops ++ (if 0 < nLiked then [GenOp.encodeLiked] else [])
  let ops := ops ++ (if 0 < nDisliked then [GenOp.encodeDisliked] else [])
  if promptIsStr = false ∧ promptLen ≠ n_images then (ops, some GenErr.promptLenMismatch)
  else if negIsStr = false ∧ negLen ≠ n_images then
    (ops, some GenErr.negativePromptLenMismatch)
  else (ops ++ [GenOp.encodePrompts, GenOp.denoiseLoop], none)

/-! ### Image preprocessing (`image_to_tensor`, lines 504-516) -/

inductive ImgMode where
  | RGB
  | L
  | RGBA
  | P
deriving DecidableEq

/-- A PIL image: mode, size and the 8-bit pixel accessor (row, column,
channel under the RGB interpretation). -/
structure PILImage where
  mode : ImgMode
  width : ℕ
  height : ℕ
  px : ℕ → ℕ → Fin 3 → Fin 256

/-- Lines 511-513: convert to RGB when needed, then resize to 512×512.
`convertRGB` and `resize` are the external PIL collaborators. -/
def preprocessed (convertRGB : PILImage → PILImage)
    (resize : PILImage → ℕ → ℕ → PILImage) (image : PILImage) : PILImage :=
  let image := if image.mode = ImgMode.RGB then image else convertRGB image
  resize image 512 512

/-- Lines 504-516, `image_to_tensor`: preprocess, take the uint8 pixel array,
apply `v / 127.5 - 1.0` and permute `(H, W, C) → (C, H, W)`. The result is
the nested list `[channel][row][column]` of rationals. -/
def image_to_tensor (convertRGB : PILImage → PILImage)
    (resize : PILImage → ℕ → ℕ → PILImage) (image : PILImage) :
    List (List (List ℚ)) :=
  let img := preprocessed convertRGB resize image
  (List.finRange 3).map (fun (c : Fin 3) =>
    (List.finRange 512).map (fun (y : Fin 512) =>
      (List.finRange 512).map (fun (x : Fin 512) =>
        ((img.px (y : ℕ) (x : ℕ) c : ℕ) : ℚ) / (255/2) - 1)))

/-- Concrete weighted-attention collaborator used by counterexample
evaluations: returns the query batch unchanged. -/
def demoAttnW : List (List ℕ) → List (List ℕ) → List (List ℚ) → List (List ℕ) :=
  fun q _ _ => q

/-- Concrete plain-attention collaborator used by counterexample
evaluations: the identity. -/
def demoOldFwd : List (List ℕ) → List (List ℕ) := fun x => x

/-! ## Helper lemmas -/

theorem flatten_replicate_replicate {α : Type} (m d : ℕ) (a : α) :
    (List.replicate m (List.replicate d a)).flatten = List.replicate (m * d) a := by
  induction m with
  | zero => simp
  | succ m ih =>
    rw [List.replicate_succ, List.flatten_cons, ih, Nat.succ_mul, Nat.add_comm,
      ← List.replicate_add]

theorem assignFrom_replicate_one (k d : ℕ) (w : ℚ) :
    assignFrom (List.replicate ((1 + k) * d) 1) d w
      = List.replicate d 1 ++ List.replicate (k * d) w := by
  unfold assignFrom
  rw [List.take_replicate, List.drop_replicate, List.map_replicate]
  have h : (1 + k) * d = d + k * d := by ring
  rw [h, min_eq_left (Nat.le_add_right d (k * d)), Nat.add_sub_cancel_left]

theorem halfOut_some {V : Type}
    (attnW : List (List V) → List (List V) → List (List ℚ) → List (List V))
    (oldFwd : List (List V) → List (List V))
    (own : List (List V)) (B d k : ℕ) (w : ℚ)
    (c : List (List V)) (rest : List (List (List V)))
    (hdpos : 0 < d) (hc : (c.headD []).length = k * d) :
    halfOut attnW oldFwd own (onesW B d) d w (some (c :: rest)) =
      .ok (attnW own (catDim1 own c)
        (List.replicate B (List.replicate d 1 ++ List.replicate (k * d) w)), some rest) := by
  unfold halfOut popFront
  simp only []
  congr 2
  unfold assignFromAll repeatDim1 onesW
  rw [hc, Nat.mul_div_cancel k hdpos, List.map_replicate, List.map_replicate,
    flatten_replicate_replicate, assignFrom_replicate_one]

theorem local_weights_eq (a b : ℚ) (n : ℕ) :
    local_weights (a, b) n
      = (List.range n).map (fun (i : ℕ) => a + (b - a) * (i : ℚ) / (n : ℚ)) := by
  unfold local_weights linspace
  rw [List.range_succ, List.map_append, List.map_singleton, List.dropLast_concat]
  refine List.map_congr_left ?_
  intro i _
  norm_num

theorem finRange_getElem? {n : ℕ} (i : Fin n) : (List.finRange n)[(i : ℕ)]? = some i := by
  rw [List.getElem?_eq_getElem (by simp)]
  simp

/-! ## Claim theorems -/

/-- C1: in the reference softmax path of `attn_with_weights`, for every weight
vector with at least one nonzero entry (weights are non-negative), the total
weighted probability mass is strictly positive — so the renormalization at
line 108 never divides by zero — and the renormalized weighted attention
distribution sums to 1 over the key dimension for every query position. -/
theorem C1_weighted_attention_sums_to_one {n : ℕ} (s w : Fin n → ℝ)
    (hw : ∀ i, 0 ≤ w i) (hnz : ∃ i, w i ≠ 0) :
    0 < ∑ j, softmaxRow s j * w j ∧ ∑ i, attnProbsWeighted s w i = 1 := by
  obtain ⟨i0, hi0⟩ := hnz
  have hexp : ∀ j : Fin n, 0 < Real.exp (s j) := fun j => Real.exp_pos _
  have hS : 0 < ∑ j, Real.exp (s j) :=
    Finset.sum_pos (fun j _ => hexp j) ⟨i0, Finset.mem_univ i0⟩
  have hp : ∀ j, 0 < softmaxRow s j := fun j => div_pos (hexp j) hS
  have hpos : 0 < ∑ j, softmaxRow s j * w j :=
    Finset.sum_pos' (fun j _ => mul_nonneg (hp j).le (hw j))
      ⟨i0, Finset.mem_univ i0, mul_pos (hp i0) (lt_of_le_of_ne (hw i0) (Ne.symm hi0))⟩
  refine ⟨hpos, ?_⟩
  unfold attnProbsWeighted weightRenormalize
  rw [← Finset.sum_div]
  exact div_self (ne_of_gt hpos)

theorem C1_witness :
    0 < ∑ j : Fin 1, softmaxRow (fun _ => (0:ℝ)) j * (fun _ => (1:ℝ)) j ∧
    ∑ i : Fin 1, attnProbsWeighted (fun _ => (0:ℝ)) (fun _ => (1:ℝ)) i = 1 :=
  C1_weighted_attention_sums_to_one (fun _ => 0) (fun _ => 1)
    (fun _ => zero_le_one) ⟨0, one_ne_zero⟩

/-- C6: the two execution paths of `attn_with_weights` — (a) multiplying the
post-softmax probabilities by the weights and renormalizing (lines 102-109),
and (b) adding `log(weight)` as an additive bias to the logits before softmax
in the fused kernel (lines 110-121) — produce the same attention distribution,
and hence the same `bmm` output against any value rows. Stated for strictly
positive weights (a zero weight makes `log` diverge to `-∞`, which the real
numbers cannot express; both float paths then assign probability 0). -/
theorem C6_bias_path_equals_weighted_path {n : ℕ} (s w : Fin n → ℝ)
    (hw : ∀ i, 0 < w i) :
    (∀ i, attnProbsBiased s w i = attnProbsWeighted s w i) ∧
    (∀ value : Fin n → ℝ,
      bmmRow (attnProbsBiased s w) value = bmmRow (attnProbsWeighted s w) value) := by
  have he : ∀ j : Fin n, Real.exp (s j + Real.log (w j)) = Real.exp (s j) * w j :=
    fun j => by rw [Real.exp_add, Real.exp_log (hw j)]
  have hmain : ∀ i, attnProbsBiased s w i = attnProbsWeighted s w i := by
    intro i
    have hS : (0:ℝ) < ∑ j, Real.exp (s j) :=
      Finset.sum_pos (fun j _ => Real.exp_pos _) ⟨i, Finset.mem_univ i⟩
    have hd : ∀ j : Fin n, Real.exp (s j) / (∑ k, Real.exp (s k)) * w j
        = Real.exp (s j) * w j / (∑ k, Real.exp (s k)) := fun j => div_mul_eq_mul_div _ _ _
    simp only [attnProbsBiased, attnProbsWeighted, weightRenormalize, softmaxRow, he, hd,
      ← Finset.sum_div]
    rw [div_div_div_comm, div_self (ne_of_gt hS), div_one]
  exact ⟨hmain, fun value => Finset.sum_congr rfl (fun j _ => by rw [hmain j])⟩

theorem C6_witness :
    (∀ i, attnProbsBiased (fun _ : Fin 1 => (0:ℝ)) (fun _ => (1:ℝ)) i
      = attnProbsWeighted (fun _ => (0:ℝ)) (fun _ => (1:ℝ)) i) ∧
    (∀ value : Fin 1 → ℝ,
      bmmRow (attnProbsBiased (fun _ => (0:ℝ)) (fun _ => (1:ℝ))) value
        = bmmRow (attnProbsWeighted (fun _ => (0:ℝ)) (fun _ => (1:ℝ))) value) :=
  C6_bias_path_equals_weighted_path (fun _ => 0) (fun _ => 1) (fun _ => one_pos)

/-- C2: during the injection forward pass, every intercepted block splits its
input at the batch midpoint into a conditioned and an unconditioned half; with
both caches present it pops the front tensor off each half's cached sequence,
concatenates it along the sequence dimension to that half's own hidden state,
builds a weight tensor equal to 1.0 over the own positions and to the
configured per-depth injection weight over the appended cached positions, runs
weighted attention with the half's own hidden state as query, and recombines
the halves along the batch dimension, conditioned first, with the original
batch size. Stated for a uniform sequence length `d` and cached lengths that
are multiples of `d` (the shape the generation loop always produces). -/
theorem C2_injection_block_structure {V : Type}
    (attnW : List (List V) → List (List V) → List (List ℚ) → List (List V))
    (oldFwd : List (List V) → List (List V))
    (hidden_states : List (List V)) (B d k1 k2 : ℕ)
    (cp cn : List (List V)) (restP restN : List (List (List V))) (pw nw : ℚ)
    (hB : 0 < B) (hlen : hidden_states.length = 2 * B)
    (hd : ∀ r ∈ hidden_states, r.length = d) (hdpos : 0 < d)
    (hcp : (cp.headD []).length = k1 * d) (hcn : (cn.headD []).length = k2 * d)
    (hattn : ∀ q e w, (attnW q e w).length = q.length) :
    new_forward attnW oldFwd hidden_states (some (cp :: restP)) (some (cn :: restN)) pw nw =
      .ok (attnW (hidden_states.take B) (catDim1 (hidden_states.take B) cp)
          (List.replicate B (List.replicate d 1 ++ List.replicate (k1 * d) pw))
        ++ attnW (hidden_states.drop B) (catDim1 (hidden_states.drop B) cn)
          (List.replicate B (List.replicate d 1 ++ List.replicate (k2 * d) nw)),
        some restP, some restN) ∧
    (attnW (hidden_states.take B) (catDim1 (hidden_states.take B) cp)
        (List.replicate B (List.replicate d 1 ++ List.replicate (k1 * d) pw))
      ++ attnW (hidden_states.drop B) (catDim1 (hidden_states.drop B) cn)
        (List.replicate B (List.replicate d 1 ++ List.replicate (k2 * d) nw))).length
      = hidden_states.length := by
  have hmid : (hidden_states.length + 1) / 2 = B := by omega
  have hchunk1 : (chunk2 hidden_states).1 = hidden_states.take B := by
    unfold chunk2; rw [hmid]
  have hchunk2 : (chunk2 hidden_states).2 = hidden_states.drop B := by
    unfold chunk2; rw [hmid]
  have hbs : (hidden_states.take B).length = B := by
    rw [List.length_take]; omega
  have hdm : ((hidden_states.take B).headD []).length = d := by
    obtain ⟨r, rs, rfl⟩ : ∃ r rs, hidden_states = r :: rs := by
      cases hidden_states with
      | nil => exfalso; simp at hlen; omega
      | cons r rs => exact ⟨r, rs, rfl⟩
    obtain ⟨b, rfl⟩ : ∃ b, B = b + 1 := ⟨B - 1, by omega⟩
    simpa using hd r (List.mem_cons_self r rs)
  constructor
  · unfold new_forward
    simp only [hchunk1, hchunk2, hbs, hdm]
    rw [halfOut_some attnW oldFwd _ B d k1 pw cp restP hdpos hcp,
        halfOut_some attnW oldFwd _ B d k2 nw cn restN hdpos hcn]
  · rw [List.length_append, hattn, hattn, List.length_take, List.length_drop]
    omega

theorem C2_witness :
    new_forward (V := ℕ) (fun q _ _ => q) (fun x => x) [[0], [0]]
        (some [[[5]]]) (some [[[7]]]) 1 1 =
      .ok ((fun (q _ : List (List ℕ)) (_ : List (List ℚ)) => q) ([[0], [0]].take 1)
            (catDim1 ([[0], [0]].take 1) [[5]])
            (List.replicate 1 (List.replicate 1 1 ++ List.replicate (1 * 1) 1))
          ++ (fun (q _ : List (List ℕ)) (_ : List (List ℚ)) => q) ([[0], [0]].drop 1)
            (catDim1 ([[0], [0]].drop 1) [[7]])
            (List.replicate 1 (List.replicate 1 1 ++ List.replicate (1 * 1) 1)),
        some [], some []) ∧
    ((fun (q _ : List (List ℕ)) (_ : List (List ℚ)) => q) ([[0], [0]].take 1)
          (catDim1 ([[0], [0]].take 1) [[5]])
          (List.replicate 1 (List.replicate 1 1 ++ List.replicate (1 * 1) 1))
        ++ (fun (q _ : List (List ℕ)) (_ : List (List ℚ)) => q) ([[0], [0]].drop 1)
          (catDim1 ([[0], [0]].drop 1) [[7]])
          (List.replicate 1 (List.replicate 1 1 ++ List.replicate (1 * 1) 1))).length
      = ([[0], [0]] : List (List ℕ)).length :=
  C2_injection_block_structure (fun q _ _ => q) (fun x => x) [[0], [0]] 1 1 1 1
    [[5]] [[7]] [] [] 1 1 (by decide) rfl (by decide) (by decide) (by decide) (by decide)
    (fun _ _ _ => rfl)

/-- C3: the base feedback weight of `generate` equals `max_weight` exactly
when `round(N*feedback_start) ≤ i ≤ round(N*feedback_end)` (both rounded
boundary indices inclusive) and `min_weight` otherwise; in particular for
`N = 20`, `feedback_start = 0.33`, `feedback_end = 0.66` the steps with index
in `[7, 13]` use `max_weight` and all others use `min_weight`. -/
theorem C3_feedback_window_weight (i N : ℕ) (fs fe minW maxW : ℚ)
    (hne : minW ≠ maxW) :
    (baseWeight i N fs fe minW maxW = maxW ↔
      (ref_start_idx N fs ≤ (i : ℤ) ∧ (i : ℤ) ≤ ref_end_idx N fe)) ∧
    (∀ j : ℕ, baseWeight j 20 (33/100) (66/100) minW maxW = maxW ↔ (7 ≤ j ∧ j ≤ 13)) := by
  constructor
  · unfold baseWeight
    split_ifs with h
    · exact ⟨fun _ => h, fun _ => rfl⟩
    · exact iff_of_false hne h
  · intro j
    have h1 : ref_start_idx 20 (33/100) = 7 := by norm_num [ref_start_idx, pyRound]
    have h2 : ref_end_idx 20 (66/100) = 13 := by norm_num [ref_end_idx, pyRound]
    unfold baseWeight
    rw [h1, h2]
    split_ifs with h
    · exact iff_of_true rfl (by omega)
    · exact iff_of_false hne (by omega)

theorem C3_witness :
    ((baseWeight 8 20 (33/100) (66/100) 0 1 = 1 ↔
      (ref_start_idx 20 (33/100) ≤ ((8:ℕ) : ℤ) ∧ ((8:ℕ) : ℤ) ≤ ref_end_idx 20 (66/100))) ∧
     (∀ j : ℕ, baseWeight j 20 (33/100) (66/100) 0 1 = 1 ↔ (7 ≤ j ∧ j ≤ 13))) :=
  C3_feedback_window_weight 8 20 (33/100) (66/100) 0 1 (by decide)

/-- C4: after a call to the hidden-state caching pass or to the
cached-injection forward pass, every intercepted module's forward behavior is
restored to its pre-call identity (the saved callable is put back and the
`old_forward` attribute removed), so a subsequent ordinary forward pass is
unaffected. Stated for modules that are uninstrumented before the call, as
they are in the source. -/
theorem C4_forward_restoration {F C : Type} (mk : F → F) (ms : List (AttnModule F))
    (h : ∀ m ∈ ms, m.old_forward = none) (cp cn : Option C) :
    modulesAfterHiddenStateCache mk ms = ms ∧
    modulesAfterInjectionForward mk cp cn ms = ms := by
  have key : restoreAll (instrumentAll mk ms) = ms := by
    unfold restoreAll instrumentAll
    rw [List.map_map]
    have h2 : ∀ m ∈ ms, (restoreModule ∘ instrumentModule mk) m = id m := by
      intro m hm
      obtain ⟨f, o⟩ := m
      have ho : o = none := h ⟨f, o⟩ hm
      subst ho
      rfl
    rw [List.map_congr_left h2, List.map_id]
  refine ⟨key, ?_⟩
  unfold modulesAfterInjectionForward
  split_ifs with hc
  · rfl
  · exact key

theorem C4_witness :
    modulesAfterHiddenStateCache (fun f => f) [AttnModule.mk (0:ℕ) none]
      = [AttnModule.mk 0 none] ∧
    modulesAfterInjectionForward (fun f => f) (none : Option ℕ) (some 0)
      [AttnModule.mk (0:ℕ) none] = [AttnModule.mk 0 none] :=
  C4_forward_restoration (fun f => f) [AttnModule.mk 0 none] (by decide) none (some 0)

/-- C5: with zero liked and zero disliked images, the trajectory produced by
the denoising loop of `generate` is identical to plain classifier-free-guided
sampling: at every step no caches are built, `unet_forward_with_cached_hidden_states`
calls the network directly (no attention interception, no injection), and the
step reduces to the plain classifier-free-guidance update. -/
theorem C5_no_feedback_plain_cfg {Z E T : Type} [AddCommGroup Z] [Module ℚ Z]
    (C : GenCollab Z E T) (prompt_embd : E) (fs fe minW maxW g : ℚ)
    (ts : List T) (z0 : Z) :
    fabricTrajectory C prompt_embd 0 0 fs fe minW maxW g ts z0 =
      plainCfgTrajectory C prompt_embd g ts z0 := by
  have hstep : ∀ (N i : ℕ) (t : T) (z : Z),
      fabricStep C prompt_embd 0 0 fs fe minW maxW g N i t z
        = plainCfgStep C prompt_embd g t z := by
    intro N i t z
    unfold fabricStep plainCfgStep unetForwardWithCached
    simp
  unfold fabricTrajectory plainCfgTrajectory
  suffices h : ∀ (l : List T) (m : ℕ) (z : Z),
      (l.foldl
        (fun p t =>
          (p.1 + 1,
            fabricStep C prompt_embd 0 0 fs fe minW maxW g ts.length p.1 t p.2))
        (m, z)).2
      = l.foldl (fun z t => plainCfgStep C prompt_embd g t z) z by
    exact h ts 0 z0
  intro l
  induction l with
  | nil => intro m z; rfl
  | cons t l ih =>
    intro m z
    simp only [List.foldl_cons, hstep]
    exact ih _ _

/-- C7 counterexample: the claim says a mismatched prompt-list length raises
the validation error before any tensor computation; however with 3 prompts
and `n_images = 2` the trace already contains the initial latent sampling
(`torch.randn` at line 375) when the length check at line 400 fails, so the
failure is not before all tensor computation. -/
theorem C7_counterexample :
    (generateOps false 3 true 0 0 0 2).2 = some GenErr.promptLenMismatch ∧
    GenOp.latentSample ∈ (generateOps false 3 true 0 0 0 2).1 := by decide

/-- C7 (amended): a prompt-list or negative-prompt-list length differing from
`n_images` makes `generate` fail fast at the length assertions — after the
initial latent sampling and any reference-image encoding, but before prompt
encoding and before any denoising step. -/
theorem C7_validation_order (promptIsStr negIsStr : Bool)
    (promptLen negLen nLiked nDisliked n : ℕ)
    (h : (promptIsStr = false ∧ promptLen ≠ n) ∨ (negIsStr = false ∧ negLen ≠ n)) :
    (generateOps promptIsStr promptLen negIsStr negLen nLiked nDisliked n).2.isSome ∧
    GenOp.encodePrompts ∉
      (generateOps promptIsStr promptLen negIsStr negLen nLiked nDisliked n).1 ∧
    GenOp.denoiseLoop ∉
      (generateOps promptIsStr promptLen negIsStr negLen nLiked nDisliked n).1 := by
  unfold generateOps
  by_cases h1 : promptIsStr = false ∧ promptLen ≠ n
  · rw [if_pos h1]
    refine ⟨rfl, ?_, ?_⟩ <;> · split_ifs <;> simp
  · rw [if_neg h1]
    have h2 : negIsStr = false ∧ negLen ≠ n := by tauto
    rw [if_pos h2]
    refine ⟨rfl, ?_, ?_⟩ <;> · split_ifs <;> simp

theorem C7_witness :
    ((generateOps false 3 true 2 0 0 2).2.isSome ∧
     GenOp.encodePrompts ∉ (generateOps false 3 true 2 0 0 2).1 ∧
     GenOp.denoiseLoop ∉ (generateOps false 3 true 2 0 0 2).1) :=
  C7_validation_order false true 3 2 0 0 2 (Or.inl ⟨rfl, by decide⟩)

/-- C8 counterexample: the claim says a half whose cached sequence is
exhausted (present but empty) falls back to ordinary self-attention; instead
the block's `cached_pos_hiddens.pop(0)` at line 294 is reached whenever the
cache is not `None`, so an empty cached sequence raises IndexError rather
than falling back. -/
theorem C8_counterexample :
    new_forward demoAttnW demoOldFwd [[0], [0]] (some []) none 1 1
      = .error TErr.popFromEmpty := by rfl

/-- C8 (amended): the fallback to ordinary unweighted self-attention on a
half alone happens exactly when that half's cache is absent (`None`); a
present-but-exhausted (empty) cached sequence instead fails with the
pop-from-empty error. -/
theorem C8_fallback_only_when_cache_absent {V : Type}
    (attnW : List (List V) → List (List V) → List (List ℚ) → List (List V))
    (oldFwd : List (List V) → List (List V))
    (hs : List (List V)) (pw nw : ℚ)
    (cn : Option (List (List (List V)))) :
    (new_forward attnW oldFwd hs none none pw nw =
      .ok (oldFwd (chunk2 hs).1 ++ oldFwd (chunk2 hs).2, none, none)) ∧
    (new_forward attnW oldFwd hs (some []) cn pw nw = .error TErr.popFromEmpty) := by
  constructor
  · rfl
  · rfl

/-- C9: the per-depth injection weights are linearly interpolated across
network depth from the pair (own weight `a`, bottleneck weight `b`): the
`n` down-sampling blocks receive the ramp `a + (b - a) * j / n` for
`j = 0, …, n-1` (from the own weight toward the bottleneck weight), the
bottleneck block receives exactly the end value `b`, and the `n` up-sampling
blocks receive the mirror of the down ramp. The computation is a pure
function of the weight pair and the depth, applied separately to the
positive and negative pairs and independent of the timestep. -/
theorem C9_depth_ramp (a b : ℚ) (n : ℕ) :
    (depthWeights (a, b) n).length = 2 * n + 1 ∧
    (∀ j, j < n → (depthWeights (a, b) n)[j]? = some (a + (b - a) * (j : ℚ) / (n : ℚ))) ∧
    (depthWeights (a, b) n)[n]? = some b ∧
    (∀ j, j < n →
      (depthWeights (a, b) n)[n + 1 + j]? =
        some (a + (b - a) * ((n - 1 - j : ℕ) : ℚ) / (n : ℚ))) := by
  have hlen : (local_weights (a, b) n).length = n := by
    rw [local_weights_eq, List.length_map, List.length_range]
  have hget : ∀ j, j < n →
      (local_weights (a, b) n)[j]? = some (a + (b - a) * (j : ℚ) / (n : ℚ)) := by
    intro j hj
    rw [local_weights_eq, List.getElem?_map, List.getElem?_range hj]
    rfl
  refine ⟨?_, ?_, ?_, ?_⟩
  · unfold depthWeights
    simp [hlen]
    omega
  · intro j hj
    unfold depthWeights
    rw [List.getElem?_append_left (by rw [List.length_append, hlen, List.length_singleton]; omega),
      List.getElem?_append_left (by rw [hlen]; exact hj)]
    exact hget j hj
  · unfold depthWeights
    rw [List.getElem?_append_left (by rw [List.length_append, hlen, List.length_singleton]; omega),
      List.getElem?_append_right (le_of_eq hlen), hlen]
    simp
  · intro j hj
    unfold depthWeights
    rw [List.getElem?_append_right (by rw [List.length_append, hlen, List.length_singleton]; omega)]
    rw [List.length_append, hlen, List.length_singleton]
    have harg : n + 1 + j - (n + 1) = j := by omega
    rw [harg, List.getElem?_reverse (by rw [hlen]; exact hj), hlen]
    exact hget (n - 1 - j) (by omega)

/-- C10: every reference image passed to `image_to_tensor` is converted to
RGB when needed, resized to 512×512, and mapped to a tensor of shape
(3, 512, 512) by `v / 127.5 - 1` on the 8-bit pixel values with a
(H, W, C) → (C, H, W) permutation; all entries lie in [−1, 1], regardless of
the input image's original size or mode. The PIL collaborators are abstract,
constrained only by their contracts: `convert("RGB")` yields mode RGB and
`resize` preserves mode. -/
theorem C10_image_preprocessing (convertRGB : PILImage → PILImage)
    (resize : PILImage → ℕ → ℕ → PILImage) (image : PILImage)
    (hconv : ∀ im, (convertRGB im).mode = ImgMode.RGB)
    (hres : ∀ im w h, (resize im w h).mode = im.mode) :
    (preprocessed convertRGB resize image).mode = ImgMode.RGB ∧
    (image_to_tensor convertRGB resize image).length = 3 ∧
    (∀ p ∈ image_to_tensor convertRGB resize image,
      p.length = 512 ∧ ∀ r ∈ p, r.length = 512) ∧
    (∀ (c : Fin 3) (y x : Fin 512),
      ((((image_to_tensor convertRGB resize image)[(c : ℕ)]?).bind
          (fun p => p[(y : ℕ)]?)).bind (fun r => r[(x : ℕ)]?))
        = some ((((preprocessed convertRGB resize image).px y x c : ℕ) : ℚ) / (255/2) - 1)) ∧
    (∀ p ∈ image_to_tensor convertRGB resize image, ∀ r ∈ p, ∀ v ∈ r,
      -1 ≤ v ∧ v ≤ 1) := by
  have hmode : (preprocessed convertRGB resize image).mode = ImgMode.RGB := by
    unfold preprocessed
    rw [hres]
    split_ifs with h
    · exact h
    · exact hconv image
  have hbound : ∀ (v : Fin 256), -1 ≤ ((v : ℕ) : ℚ) / (255/2) - 1 ∧
      ((v : ℕ) : ℚ) / (255/2) - 1 ≤ 1 := by
    intro v
    have h0 : (0 : ℚ) ≤ ((v : ℕ) : ℚ) := Nat.cast_nonneg _
    have h255 : ((v : ℕ) : ℚ) ≤ 255 := by
      have := v.isLt
      exact_mod_cast Nat.lt_succ_iff.mp this
    constructor
    · have : (0:ℚ) ≤ ((v : ℕ) : ℚ) / (255/2) := by positivity
      linarith
    · have : ((v : ℕ) : ℚ) / (255/2) ≤ 2 := by
        rw [div_le_iff₀ (by norm_num)]
        linarith
      linarith
  refine ⟨hmode, ?_, ?_, ?_, ?_⟩
  · simp [image_to_tensor]
  · intro p hp
    simp only [image_to_tensor, List.mem_map] at hp
    obtain ⟨c, _, rfl⟩ := hp
    constructor
    · simp
    · intro r hr
      simp only [List.mem_map] at hr
      obtain ⟨y, _, rfl⟩ := hr
      simp
  · intro c y x
    simp only [image_to_tensor]
    rw [List.getElem?_map, finRange_getElem?]
    simp only [Option.map_some', Option.some_bind]
    rw [List.getElem?_map, finRange_getElem?]
    simp only [Option.map_some', Option.some_bind]
    rw [List.getElem?_map, finRange_getElem?]
    rfl
  · intro p hp r hr v hv
    simp only [image_to_tensor, List.mem_map] at hp
    obtain ⟨c, _, rfl⟩ := hp
    simp only [List.mem_map] at hr
    obtain ⟨y, _, rfl⟩ := hr
    simp only [List.mem_map] at hv
    obtain ⟨x, _, rfl⟩ := hv
    exact hbound _

theorem C10_witness :
    ((preprocessed (fun im => PILImage.mk ImgMode.RGB im.width im.height im.px)
        (fun im _ _ => im) (PILImage.mk ImgMode.L 10 20 (fun _ _ _ => 0))).mode
      = ImgMode.RGB ∧
    (image_to_tensor (fun im => PILImage.mk ImgMode.RGB im.width im.height im.px)
        (fun im _ _ => im) (PILImage.mk ImgMode.L 10 20 (fun _ _ _ => 0))).length = 3 ∧
    (∀ p ∈ image_to_tensor (fun im => PILImage.mk ImgMode.RGB im.width im.height im.px)
        (fun im _ _ => im) (PILImage.mk ImgMode.L 10 20 (fun _ _ _ => 0)),
      p.length = 512 ∧ ∀ r ∈ p, r.length = 512) ∧
    (∀ (c : Fin 3) (y x : Fin 512),
      ((((image_to_tensor (fun im => PILImage.mk ImgMode.RGB im.width im.height im.px)
            (fun im _ _ => im) (PILImage.mk ImgMode.L 10 20 (fun _ _ _ => 0)))[(c : ℕ)]?).bind
          (fun p => p[(y : ℕ)]?)).bind (fun r => r[(x : ℕ)]?))
        = some ((((preprocessed (fun im => PILImage.mk ImgMode.RGB im.width im.height im.px)
            (fun im _ _ => im)
            (PILImage.mk ImgMode.L 10 20 (fun _ _ _ => 0))).px y x c : ℕ) : ℚ)
              / (255/2) - 1)) ∧
    (∀ p ∈ image_to_tensor (fun im => PILImage.mk ImgMode.RGB im.width im.height im.px)
        (fun im _ _ => im) (PILImage.mk ImgMode.L 10 20 (fun _ _ _ => 0)),
      ∀ r ∈ p, ∀ v ∈ r, -1 ≤ v ∧ v ≤ 1)) :=
  C10_image_preprocessing (fun im => PILImage.mk ImgMode.RGB im.width im.height im.px)
    (fun im _ _ => im) (PILImage.mk ImgMode.L 10 20 (fun _ _ _ => 0))
    (fun _ => rfl) (fun _ _ _ => rfl)
